import Mathlib

/-!
Verification of the Shrdlite planner core: the state/action model and goal
evaluator of Planner.ts, the physics predicate of the Interpreter module,
and the generic A* search of Graph.ts, together with theorems settling the
specified properties.
-/

namespace Shrdlite

/-- Planner.State (Planner.ts): column stacks (bottom to top), the held
object (JS `null` modelled as `none`) and the arm column.  The arm index is
a JS number that the generator only ever decrements under an `arm > 0`
guard, so it is modelled as `Nat`. -/
structure PState where
  stacks_ : List (List String)
  holding : Option String
  arm : Nat
deriving DecidableEq, Repr

/-- Edge (Graph.ts): a transition between two nodes with a cost. -/
structure Edge (Node : Type) where
  from_ : Node
  to_ : Node
  cost : Int
deriving DecidableEq, Repr

/-- Interpreter.Literal (Interpreter.ts). -/
structure Literal where
  polarity : Bool
  relation : String
  args : List String
deriving DecidableEq, Repr

/-- Pos (Planner.ts): column/row position of an object. -/
structure Pos where
  x : Int
  y : Int
deriving DecidableEq, Repr

/-- Helper for findPos: scan the stacks from column index `i` upwards. -/
def findPosFrom (obj : String) : List (List String) → Nat → Pos
  | [], _ => ⟨-2, -2⟩
  | col :: rest, i =>
    match col.findIdx? (fun o => o == obj) with
    | some j => ⟨(i : Int), (j : Int)⟩
    | none => findPosFrom obj rest (i + 1)

/-- findPos (Planner.ts): position of `obj` in the stacks, or the sentinel
(-2,-2) when it is in no stack (held, absent, or the token "floor"). -/
def findPos (obj : String) (stacks_ : List (List String)) : Pos :=
  findPosFrom obj stacks_ 0

/-- checkLit (Planner.ts): truth of a literal in a state.  The source has
no case for the relation "ontop", and its "inside" case has no floor
clause. -/
def checkLit (lit : Literal) (s : PState) : Bool :=
  let rel := lit.relation
  let a := findPos (lit.args.getD 0 "") s.stacks_
  let b := findPos (lit.args.getD 1 "") s.stacks_
  (rel == "holding" && s.holding == some (lit.args.getD 0 "")) ||
  (rel == "inside" && a.x == b.x && a.y - 1 == b.y) ||
  (rel == "above" && a.x == b.x && decide (b.y < a.y)) ||
  (rel == "under" && a.x == b.x && decide (a.y < b.y)) ||
  (rel == "leftof" && decide (a.x < b.x)) ||
  (rel == "rightof" && decide (b.x < a.x)) ||
  (rel == "beside" && (a.x - b.x).natAbs == 1)

/-- The goal predicate of Planner.planInterpretation:
`interpretation[0].every(lit => checkLit(lit, state))` — only the first
conjunction of the DNF formula is consulted.  The source throws on an empty
formula; here the head defaults to the empty conjunction, and every theorem
below supplies a non-empty formula. -/
def goalDNF (F : List (List Literal)) (s : PState) : Bool :=
  (F.headD []).all (fun l => checkLit l s)

/-- The `s.arm--` successor (Planner.ts outgoingEdges, first branch). -/
def moveLeftSucc (s : PState) : PState := { s with arm := s.arm - 1 }

/-- The `s.arm++` successor (Planner.ts outgoingEdges, second branch). -/
def moveRightSucc (s : PState) : PState := { s with arm := s.arm + 1 }

/-- The pick-up successor (third branch): `s.holding = s.stacks[s.arm].pop()`.
`pop` removes and returns the last element of the column, returning
`undefined` (= `none`) and leaving the column unchanged when it is empty. -/
def pickSucc (s : PState) : PState :=
  let col := s.stacks_.getD s.arm []
  { s with stacks_ := s.stacks_.set s.arm col.dropLast, holding := col.getLast? }

/-- The put-down successor (fourth branch): the source first materialises a
missing column (`if (!s.stacks[s.arm]) s.stacks[s.arm] = []`, which extends
the array when `arm` is past the end), then pushes the held object and
clears `holding`.  The branch is only entered when `holding` is non-empty. -/
def putSucc (s : PState) : PState :=
  match s.holding with
  | none => s
  | some h =>
    let stacks1 := s.stacks_ ++ List.replicate (s.arm + 1 - s.stacks_.length) []
    { s with stacks_ := stacks1.set s.arm ((stacks1.getD s.arm []) ++ [h]),
             holding := none }

/-- The move-left edge built by outgoingEdges. -/
def leftEdge (s : PState) : Edge PState := ⟨s, moveLeftSucc s, 1⟩

/-- The move-right edge built by outgoingEdges. -/
def rightEdge (s : PState) : Edge PState := ⟨s, moveRightSucc s, 1⟩

/-- The pick-up edge built by outgoingEdges. -/
def pickEdge (s : PState) : Edge PState := ⟨s, pickSucc s, 1⟩

/-- The put-down edge built by outgoingEdges. -/
def putEdge (s : PState) : Edge PState := ⟨s, putSucc s, 1⟩

/-- outgoingEdges (Planner.ts, PlanGraph).  Guards as in the source: move
left iff `arm > 0`; move right iff `arm < stacks.length`; pick up iff
`!holding && stacks[arm] != null`, i.e. the column at the arm exists — it
may be empty; otherwise put down iff `holding` is non-empty.  No physical
legality is consulted anywhere. -/
def outgoingEdges (s : PState) : List (Edge PState) :=
  (if 0 < s.arm then [leftEdge s] else []) ++
  (if s.arm < s.stacks_.length then [rightEdge s] else []) ++
  (if s.holding = none then
    (if s.arm < s.stacks_.length then [pickEdge s] else [])
  else [putEdge s])

/-- ObjectDefinition: World.ts is not among the sources; the fields are the
ones used by the Interpreter and named by the data model (form, size,
color). -/
structure ObjectDefinition where
  form : String
  size : String
  color : String
deriving DecidableEq, Repr

/-- Interpreter.filterDst: `true` means the placement of `src` on/in `dst`
violates a physical law (the comment in the source: "if return false then
the relation is okay!"). -/
def filterDst (relation : String) (src dst : ObjectDefinition) : Bool :=
  let toSmall := src.size == "large" && dst.size == "small"
  let boxCon := dst.form == "box" &&
    (src.form == "pyramid" || src.form == "plank" || src.form == "box") &&
    src.size == dst.size
  let ballCon := dst.form == "ball"
  let brickPyrCon := src.form == "box" &&
    (dst.form == "brick" || dst.form == "pyramid") &&
    dst.size == "small"
  let largeBoxPyrCon := src.form == "box" && src.size == "large" &&
    dst.form == "pyramid" && dst.size == "large"
  let ballBoxCon := src.form == "ball" && !(dst.form == "box" || dst.form == "floor")
  (relation == "inside" && (boxCon || toSmall)) ||
  (relation == "ontop" &&
    (ballCon || toSmall || brickPyrCon || largeBoxPyrCon || ballBoxCon)) ||
  (relation == "above" && (ballCon || toSmall || brickPyrCon || largeBoxPyrCon))

/-- calculateH (Planner.ts): penalty 5 for each object stacked above the
given position.  The source reads `state.stacks[objPos.x].length`, which
throws when `objPos.x` is not a valid column index (the sentinel (-2,-2) of
a held or absent object); that failure is modelled as `none`. -/
def calculateH (objPos : Pos) (s : PState) : Option Int :=
  if 0 ≤ objPos.x ∧ objPos.x.toNat < s.stacks_.length then
    let len : Int := (s.stacks_.getD objPos.x.toNat []).length
    let diff : Int := (len - 1) - objPos.y
    some (if 0 < diff then diff * 5 else 0)
  else none

/-- heuristic (Planner.ts).  The source reads `lits[0]` (throwing on an
empty list, modelled as `none`) and assigns `findPos(lit.args[0], n)` to
BOTH `sObj` and `dObj`: the line for `dObj` also reads `args[0]`, not
`args[1]`. -/
def heuristic (lits : List Literal) (n : PState) : Option Int :=
  match lits with
  | [] => none
  | lit :: _ =>
    let sObj := findPos (lit.args.getD 0 "") n.stacks_
    let dObj := findPos (lit.args.getD 0 "") n.stacks_
    if lit.relation == "holding" || lit.relation == "above" then
      calculateH sObj n
    else if lit.relation == "rightof" || lit.relation == "leftof" ||
        lit.relation == "beside" then
      calculateH sObj n
    else if lit.relation == "inside" || lit.relation == "ontop" ||
        lit.relation == "under" then
      match calculateH sObj n, calculateH dObj n with
      | some u, some v => some (u + v)
      | _, _ => none
    else some 0

/-- One step of Planner.interpret: the action symbol emitted between two
successive path states.  JS truthiness of `holding` is modelled as
`isSome`. -/
def stepAction (cs ns : PState) : List String :=
  if ns.arm < cs.arm then ["l"]
  else if cs.arm < ns.arm then ["r"]
  else if ns.holding.isSome && !cs.holding.isSome then ["p"]
  else if !ns.holding.isSome && cs.holding.isSome then ["d"]
  else []

/-- The loop of Planner.interpret over consecutive pairs of the path. -/
def planSteps : List PState → List String
  | cs :: ns :: rest => stepAction cs ns ++ planSteps (ns :: rest)
  | _ => []

/-- Number of occurrences of the object identifier `x` in a state: in the
flattened stacks plus the held object. -/
def occCount (s : PState) (x : String) : Nat :=
  s.stacks_.flatten.count x + s.holding.toList.count x

/-- SearchResult (Graph.ts). -/
structure SearchResult (Node : Type) where
  path : List Node
  cost : Int
deriving DecidableEq, Repr

/-- Planner.interpret: encode a search result's path as action symbols. -/
def interpretPlan (r : SearchResult PState) : List String := planSteps r.path

/-- Wrapper (Graph.ts): search bookkeeping attached to a node. -/
structure Wrapper (Node : Type) where
  parent : Option Node
  value : Node
  gRank : Int
  hRank : Int
  fRank : Int
deriving DecidableEq, Repr

/-- The Visited table of Graph.ts, keyed by the node (the source keys by
'$' + toString; modelled as keying by the node value itself).  setValue
conses, so lookup finds the newest entry. -/
def lookupW {Node : Type} [DecidableEq Node] (t : List (Node × Wrapper Node))
    (n : Node) : Option (Wrapper Node) :=
  (t.find? (fun p => p.1 == n)).map (fun p => p.2)

/-- Visited.getGRank.  The source would throw on a missing entry; the
default 0 is never consulted under the loop's invariant. -/
def getG {Node : Type} [DecidableEq Node] (t : List (Node × Wrapper Node))
    (n : Node) : Int :=
  match lookupW t n with
  | some w => w.gRank
  | none => 0

/-- Visited.getFRank, with the same convention as getG. -/
def getF {Node : Type} [DecidableEq Node] (t : List (Node × Wrapper Node))
    (n : Node) : Int :=
  match lookupW t n with
  | some w => w.fRank
  | none => 0

/-- Visited.getParent, with the same convention as getG. -/
def getParent {Node : Type} [DecidableEq Node] (t : List (Node × Wrapper Node))
    (n : Node) : Option Node :=
  match lookupW t n with
  | some w => w.parent
  | none => none

/-- Dequeue from the open priority queue: the first element of minimal
fRank under the comparator of aStarSearch, together with the remaining
elements. -/
def dequeueMin {Node : Type} (f : Node → Int) : List Node → Option (Node × List Node)
  | [] => none
  | x :: xs =>
    match dequeueMin f xs with
    | none => some (x, [])
    | some (y, ys) => if f x ≤ f y then some (x, xs) else some (y, x :: ys)

/-- Relaxation of one edge (the body of the for-loop in aStarSearch):
an unseen target is recorded and enqueued; a seen target is updated via
Visited.update when the new cost is lower (gRank and fRank both drop by
`gDiff`, the parent becomes the current node). -/
def relaxEdge {Node : Type} [DecidableEq Node] (heuristics : Node → Int)
    (current : Node) (acc : List Node × List (Node × Wrapper Node))
    (e : Edge Node) : List Node × List (Node × Wrapper Node) :=
  let cost := getG acc.2 current + e.cost
  match lookupW acc.2 e.to_ with
  | none =>
    let hR := heuristics e.to_
    (acc.1 ++ [e.to_], (e.to_, ⟨some current, e.to_, cost, hR, cost + hR⟩) :: acc.2)
  | some w =>
    if cost < w.gRank then
      let gDiff := w.gRank - cost
      (acc.1 ++ [e.to_],
        (e.to_, ⟨some current, w.value, w.gRank - gDiff, w.hRank, w.fRank - gDiff⟩)
          :: acc.2)
    else acc

/-- Path reconstruction (the `while(current)` loop of aStarSearch): follow
parent links, prepending each node; fuelled by the table size since the
source relies on the parent chain being acyclic. -/
def backtrack {Node : Type} [DecidableEq Node] (t : List (Node × Wrapper Node)) :
    Nat → Option Node → List Node → List Node
  | 0, _, acc => acc
  | _ + 1, none, acc => acc
  | k + 1, some n, acc => backtrack t k (getParent t n) (n :: acc)

/-- The main loop of aStarSearch (Graph.ts).  The wall-clock deadline
`Date.now() < endTime` is modelled as iteration fuel: a timeout of zero
gives fuel 0, since that guard already fails on the first check. -/
def aStarLoop {Node : Type} [DecidableEq Node] (succ : Node → List (Edge Node))
    (goal : Node → Bool) (heuristics : Node → Int) :
    Nat → List Node → List (Node × Wrapper Node) → SearchResult Node
  | 0, _, _ => ⟨[], -1⟩
  | fuel + 1, opn, vis =>
    match dequeueMin (getF vis) opn with
    | none => ⟨[], -1⟩
    | some (current, rest) =>
      if goal current then
        ⟨backtrack vis (vis.length + 1) (some current) [], getG vis current⟩
      else
        let st := (succ current).foldl (relaxEdge heuristics current) (rest, vis)
        aStarLoop succ goal heuristics fuel st.1 st.2

/-- aStarSearch (Graph.ts): record the start wrapper, enqueue the start
node and run the loop. -/
def aStarSearch {Node : Type} [DecidableEq Node] (succ : Node → List (Edge Node))
    (start : Node) (goal : Node → Bool) (heuristics : Node → Int)
    (fuel : Nat) : SearchResult Node :=
  let hRank := heuristics start
  aStarLoop succ goal heuristics fuel [start]
    [(start, ⟨none, start, 0, hRank, 0 + hRank⟩)]

/-! Helper lemmas about lists and occurrence counts. -/

/-- Membership in a conditional singleton list. -/
theorem mem_if_singleton {α : Type} (e a : α) (c : Prop) [Decidable c] :
    (e ∈ if c then [a] else []) ↔ c ∧ e = a := by
  by_cases h : c <;> simp [h]

/-- Case analysis of membership in the successor list. -/
theorem mem_outgoingEdges (s : PState) (e : Edge PState) :
    e ∈ outgoingEdges s ↔
      (0 < s.arm ∧ e = leftEdge s) ∨
      (s.arm < s.stacks_.length ∧ e = rightEdge s) ∨
      (s.holding = none ∧ s.arm < s.stacks_.length ∧ e = pickEdge s) ∨
      (s.holding ≠ none ∧ e = putEdge s) := by
  by_cases h3 : s.holding = none <;>
    simp [outgoingEdges, h3, List.mem_append, mem_if_singleton, and_assoc]

/-- Padding the stack array for a write at index `a` does not change the
column read at `a` (the new columns are empty, which is the default). -/
theorem getD_pad (l : List (List String)) (a : Nat) :
    (l ++ List.replicate (a + 1 - l.length) []).getD a [] = l.getD a [] := by
  rcases Nat.lt_or_ge a l.length with h | h
  · rw [List.getD_append _ _ _ _ h]
  · have hlt : a - l.length <
        (List.replicate (a + 1 - l.length) ([] : List String)).length := by
      simp only [List.length_replicate]; omega
    rw [List.getD_append_right _ _ _ _ h, List.getD_eq_default _ _ h,
      List.getD_eq_getElem _ _ hlt, List.getElem_replicate]

/-- The padded stack array is long enough for a write at index `a`. -/
theorem arm_lt_pad_length (l : List (List String)) (a : Nat) :
    a < (l ++ List.replicate (a + 1 - l.length) []).length := by
  simp only [List.length_append, List.length_replicate]; omega

/-- Reading back the column just written. -/
theorem getD_set_self (l : List (List String)) (i : Nat) (c : List String)
    (h : i < l.length) : (l.set i c).getD i [] = c := by
  have h2 : i < (l.set i c).length := by simpa [List.length_set] using h
  rw [List.getD_eq_getElem _ _ h2, List.getElem_set_self]

/-- Writing back the column just read is the identity. -/
theorem set_getD_self (l : List (List String)) (i : Nat) (h : i < l.length) :
    l.set i (l.getD i []) = l := by
  induction l generalizing i with
  | nil => cases h
  | cons hd tl ih =>
    cases i with
    | zero => rfl
    | succ j =>
      have h2 : j < tl.length := by simpa using h
      simp only [List.getD_cons_succ, List.set_cons_succ, ih j h2]

/-- Appending empty columns does not change the flattened contents. -/
theorem flatten_pad (l : List (List String)) (k : Nat) :
    (l ++ List.replicate k ([] : List String)).flatten = l.flatten := by
  rw [List.flatten_append]
  suffices hrep : (List.replicate k ([] : List String)).flatten = [] by
    rw [hrep, List.append_nil]
  induction k with
  | zero => rfl
  | succ n ih => simp [List.replicate_succ, List.flatten_cons, ih]

/-- Occurrence count across a column replacement: the new total plus the
old column's count equals the old total plus the new column's count. -/
theorem count_flatten_set (L : List (List String)) (i : Nat) (c : List String)
    (x : String) (h : i < L.length) :
    ((L.set i c).flatten.count x) + ((L.getD i []).count x) =
      (L.flatten.count x) + (c.count x) := by
  induction L generalizing i with
  | nil => cases h
  | cons hd tl ih =>
    cases i with
    | zero =>
      simp only [List.set_cons_zero, List.flatten_cons, List.count_append,
        List.getD_cons_zero]
      omega
    | succ j =>
      have h2 : j < tl.length := by simpa using h
      have := ih j h2
      simp only [List.set_cons_succ, List.flatten_cons, List.count_append,
        List.getD_cons_succ]
      omega

/-- A column is its dropLast plus its last element, counted. -/
theorem count_dropLast_getLast (l : List String) (x : String) :
    l.dropLast.count x + l.getLast?.toList.count x = l.count x := by
  cases hl : l.getLast? with
  | none =>
    rw [List.getLast?_eq_none_iff] at hl
    subst hl
    rfl
  | some a =>
    have hmem : a ∈ l.getLast? := by rw [hl]; rfl
    have hsplit := List.dropLast_append_getLast? a hmem
    conv_rhs => rw [← hsplit]
    rw [List.count_append]
    simp [Option.toList]

/-- Each pick-up successor preserves occurrence counts (the popped object
moves from the column top into `holding`). -/
theorem occCount_pickSucc (s : PState) (h2 : s.arm < s.stacks_.length)
    (h1 : s.holding = none) (x : String) :
    occCount (pickSucc s) x = occCount s x := by
  unfold occCount pickSucc
  simp only [h1, Option.toList_none, List.count_nil]
  have hset := count_flatten_set s.stacks_ s.arm
    (s.stacks_.getD s.arm []).dropLast x h2
  have hdrop := count_dropLast_getLast (s.stacks_.getD s.arm []) x
  omega

/-- Each put-down successor preserves occurrence counts (the held object
moves onto the top of the column under the arm). -/
theorem occCount_putSucc (s : PState) (v : String) (h : s.holding = some v)
    (x : String) : occCount (putSucc s) x = occCount s x := by
  unfold occCount putSucc
  rw [h]
  simp only [Option.toList_none, Option.toList_some, List.count_nil]
  have hlen := arm_lt_pad_length s.stacks_ s.arm
  have hset := count_flatten_set
    (s.stacks_ ++ List.replicate (s.arm + 1 - s.stacks_.length) []) s.arm
    ((s.stacks_ ++ List.replicate (s.arm + 1 - s.stacks_.length) []).getD s.arm []
      ++ [v]) x hlen
  rw [List.count_append] at hset
  rw [flatten_pad] at hset
  simp only [List.count_cons, List.count_nil] at hset ⊢
  omega

/-- A list is its dropLast followed by its optional last element. -/
theorem dropLast_append_getLast_toList (l : List String) :
    l.dropLast ++ l.getLast?.toList = l := by
  cases hl : l.getLast? with
  | none =>
    rw [List.getLast?_eq_none_iff] at hl
    subst hl
    rfl
  | some a =>
    have hmem : a ∈ l.getLast? := by rw [hl]; rfl
    simpa [Option.toList_some] using List.dropLast_append_getLast? a hmem

/-! Theorems settling the claims. -/

/-- C1: checkLit has no clause for the relation "ontop", so the literal
ontop(a,b) is false even in a state where a is directly on b in the same
column — the position side-conditions the claim states do hold there. -/
theorem c1_ontop_never_true :
    checkLit ⟨true, "ontop", ["a", "b"]⟩ ⟨[["b", "a"]], none, 0⟩ = false ∧
    (findPos "a" [["b", "a"]]).x = (findPos "b" [["b", "a"]]).x ∧
    (findPos "a" [["b", "a"]]).y = (findPos "b" [["b", "a"]]).y + 1 := by
  decide

/-- C3: with a single column and the arm at column 0 (= columns - 1), the
generator still produces a move-right edge, whose successor has
arm = columns, violating `arm < columns`; the guard in the source is
`arm < stacks.length`, not `arm < stacks.length - 1`. -/
theorem c3_moveright_off_by_one :
    rightEdge ⟨[["a"]], none, 0⟩ ∈ outgoingEdges ⟨[["a"]], none, 0⟩ ∧
    (moveRightSucc ⟨[["a"]], none, 0⟩).arm =
      (⟨[["a"]], none, 0⟩ : PState).stacks_.length ∧
    ¬((⟨[["a"]], none, 0⟩ : PState).arm <
      (⟨[["a"]], none, 0⟩ : PState).stacks_.length - 1) := by
  decide

/-- C4 counterexample: a formula whose second conjunction is satisfied but
whose first is not is rejected by the planner's goal predicate, so the
predicate is not "true iff at least one conjunction holds". -/
theorem c4_counterexample :
    goalDNF [[⟨true, "holding", ["a"]⟩], [⟨true, "holding", ["b"]⟩]]
      ⟨[[]], some "b", 0⟩ = false ∧
    ([[⟨true, "holding", ["a"]⟩], [⟨true, "holding", ["b"]⟩]].any
      (fun c => c.all (fun l => checkLit l (⟨[[]], some "b", 0⟩ : PState))))
      = true := by
  decide

/-- C4 (amended): the goal predicate is true iff every literal of the FIRST
conjunction is true in the state; the remaining conjunctions are ignored. -/
theorem c4_goal_first_conjunction_only (c : List Literal)
    (rest : List (List Literal)) (s : PState) :
    goalDNF (c :: rest) s = true ↔ ∀ l ∈ c, checkLit l s = true := by
  simp [goalDNF]

/-- C6: for the literal inside(a,c), the heuristic evaluates to the
stacked-above penalty of `a` doubled (the source assigns
`findPos(lit.args[0])` to both `sObj` and `dObj`), not to the sum of the
penalties of `a` and of `c` (which would be 5 + 0 = 5 here). -/
theorem c6_heuristic_double_counts_first_arg :
    heuristic [⟨true, "inside", ["a", "c"]⟩] ⟨[["a", "x"], ["c"]], none, 0⟩
      = some 10 ∧
    calculateH (findPos "a" [["a", "x"], ["c"]]) ⟨[["a", "x"], ["c"]], none, 0⟩
      = some 5 ∧
    calculateH (findPos "c" [["a", "x"], ["c"]]) ⟨[["a", "x"], ["c"]], none, 0⟩
      = some 0 := by
  decide

/-- C9 counterexample: in a state whose column under the arm exists but is
empty (and nothing is held), the generator still produces the pick-up edge
— a degenerate self-loop — although the claim requires a non-empty
column. -/
theorem c9_counterexample :
    pickEdge ⟨[[]], none, 0⟩ ∈ outgoingEdges ⟨[[]], none, 0⟩ ∧
    (⟨[[]], none, 0⟩ : PState).stacks_.getD 0 [] = [] := by
  decide

/-- C9 (amended): the pick-up edge is produced iff `holding` is empty and
the arm indexes an existing (possibly empty) column; the successor's
holding is the former top of that column, which is removed from it; and
when the column is empty the successor coincides with the source state. -/
theorem c9_pickup_characterization (s : PState) :
    (pickEdge s ∈ outgoingEdges s ↔
      s.holding = none ∧ s.arm < s.stacks_.length) ∧
    ((s.stacks_.getD s.arm []).dropLast ++ ((pickSucc s).holding).toList
      = s.stacks_.getD s.arm []) ∧
    ((pickSucc s).stacks_
      = s.stacks_.set s.arm ((s.stacks_.getD s.arm []).dropLast)) ∧
    (s.holding = none → s.stacks_.getD s.arm [] = [] → pickSucc s = s) := by
  refine ⟨⟨?_, ?_⟩, ?_, rfl, ?_⟩
  · intro hmem
    rw [mem_outgoingEdges] at hmem
    rcases hmem with ⟨hl, he⟩ | ⟨hr, he⟩ | ⟨h3, h4, _⟩ | ⟨h5, he⟩
    · exfalso
      have harm := congrArg (fun e => e.to_.arm) he
      simp only [pickEdge, pickSucc, leftEdge, moveLeftSucc] at harm
      omega
    · exfalso
      have harm := congrArg (fun e => e.to_.arm) he
      simp only [pickEdge, pickSucc, rightEdge, moveRightSucc] at harm
      omega
    · exact ⟨h3, h4⟩
    · exfalso
      obtain ⟨v, hv⟩ : ∃ v, s.holding = some v := by
        cases hh : s.holding with
        | none => exact absurd hh h5
        | some v => exact ⟨v, rfl⟩
      have hto : pickSucc s = putSucc s := congrArg Edge.to_ he
      have hhold := congrArg PState.holding hto
      simp only [pickSucc, putSucc, hv] at hhold
      rw [List.getLast?_eq_none_iff] at hhold
      have hstacks := congrArg PState.stacks_ hto
      simp only [pickSucc, putSucc, hv, hhold, List.dropLast_nil] at hstacks
      rcases Nat.lt_or_ge s.arm s.stacks_.length with harm | harm
      · have hg := congrArg (fun L => L.getD s.arm ([] : List String)) hstacks
        simp only at hg
        rw [getD_set_self _ _ _ harm,
          getD_set_self _ _ _ (arm_lt_pad_length s.stacks_ s.arm)] at hg
        exact absurd hg.symm (by simp)
      · rw [List.set_eq_of_length_le harm] at hstacks
        have hlen := congrArg List.length hstacks
        simp only [List.length_set, List.length_append,
          List.length_replicate] at hlen
        omega
  · intro ⟨h3, h4⟩
    rw [mem_outgoingEdges]
    exact Or.inr (Or.inr (Or.inl ⟨h3, h4, rfl⟩))
  · exact dropLast_append_getLast_toList _
  · intro h1 hcol
    show ({ s with stacks_ := _, holding := _ } : PState) = s
    rw [hcol]
    simp only [List.dropLast_nil, List.getLast?_nil]
    rw [← h1]
    cases s with
    | mk st ho ar =>
      simp only [PState.mk.injEq, and_true, true_and]
      rcases Nat.lt_or_ge ar st.length with harm | harm
      · have := set_getD_self st ar harm
        simp only at hcol
        rw [hcol] at this
        exact this
      · exact List.set_eq_of_length_le harm

/-- Witness for C9: applying the characterization at a concrete state with
a non-empty column. -/
theorem c9_witness :
    pickEdge ⟨[["a"]], none, 0⟩ ∈ outgoingEdges ⟨[["a"]], none, 0⟩ :=
  ((c9_pickup_characterization ⟨[["a"]], none, 0⟩).1).mpr ⟨rfl, by decide⟩

/-- C10: when a pick-up is legal (nothing held, a non-empty column under
the arm), the pick-up edge exists, the put-down edge exists from its
successor, and putting straight back down restores the original state. -/
theorem c10_pick_put_roundtrip (s : PState) (h1 : s.holding = none)
    (h2 : s.arm < s.stacks_.length) (h3 : s.stacks_.getD s.arm [] ≠ []) :
    pickEdge s ∈ outgoingEdges s ∧
    putEdge (pickSucc s) ∈ outgoingEdges (pickSucc s) ∧
    putSucc (pickSucc s) = s := by
  have hlast : (s.stacks_.getD s.arm []).getLast? =
      some ((s.stacks_.getD s.arm []).getLast h3) :=
    List.getLast?_eq_getLast _ h3
  refine ⟨?_, ?_, ?_⟩
  · rw [mem_outgoingEdges]
    exact Or.inr (Or.inr (Or.inl ⟨h1, h2, rfl⟩))
  · rw [mem_outgoingEdges]
    refine Or.inr (Or.inr (Or.inr ⟨?_, rfl⟩))
    show (pickSucc s).holding ≠ none
    rw [show (pickSucc s).holding = (s.stacks_.getD s.arm []).getLast? from rfl,
      hlast]
    simp
  · have hpick : (pickSucc s).holding =
        some ((s.stacks_.getD s.arm []).getLast h3) := by
      rw [show (pickSucc s).holding
        = (s.stacks_.getD s.arm []).getLast? from rfl]
      exact hlast
    have harm : (pickSucc s).arm = s.arm := rfl
    have hstackspick : (pickSucc s).stacks_
        = s.stacks_.set s.arm ((s.stacks_.getD s.arm []).dropLast) := rfl
    unfold putSucc
    rw [hpick]
    simp only [harm, hstackspick, List.length_set]
    have hzero : s.arm + 1 - s.stacks_.length = 0 := by omega
    rw [hzero]
    simp only [List.replicate_zero, List.append_nil]
    rw [getD_set_self _ _ _ h2, List.set_set]
    have hcol : (s.stacks_.getD s.arm []).dropLast
        ++ [(s.stacks_.getD s.arm []).getLast h3] = s.stacks_.getD s.arm [] := by
      have := dropLast_append_getLast_toList (s.stacks_.getD s.arm [])
      rwa [hlast] at this
    rw [hcol, set_getD_self _ _ h2]
    cases s with
    | mk st ho ar =>
      simp only at h1
      subst h1
      rfl

/-- Witness for C10 at a concrete one-column state. -/
theorem c10_witness :
    pickEdge ⟨[["a"]], none, 0⟩ ∈ outgoingEdges ⟨[["a"]], none, 0⟩ ∧
    putEdge (pickSucc ⟨[["a"]], none, 0⟩)
      ∈ outgoingEdges (pickSucc ⟨[["a"]], none, 0⟩) ∧
    putSucc (pickSucc ⟨[["a"]], none, 0⟩) = ⟨[["a"]], none, 0⟩ :=
  c10_pick_put_roundtrip ⟨[["a"]], none, 0⟩ rfl (by decide) (by decide)

/-- C2 counterexample: from the legal state [["s"],["l"]] (large "l" on
column 1, small "s" on column 0, nothing held) the generated successors
pick up "l", move left, and put "l" directly onto the small object "s",
although the Interpreter's physics predicate flags exactly this ontop
placement as illegal — the successor generator never consults it. -/
theorem c2_counterexample :
    pickEdge ⟨[["s"], ["l"]], none, 1⟩
      ∈ outgoingEdges ⟨[["s"], ["l"]], none, 1⟩ ∧
    pickSucc ⟨[["s"], ["l"]], none, 1⟩ = ⟨[["s"], []], some "l", 1⟩ ∧
    leftEdge ⟨[["s"], []], some "l", 1⟩
      ∈ outgoingEdges ⟨[["s"], []], some "l", 1⟩ ∧
    moveLeftSucc ⟨[["s"], []], some "l", 1⟩ = ⟨[["s"], []], some "l", 0⟩ ∧
    putEdge ⟨[["s"], []], some "l", 0⟩
      ∈ outgoingEdges ⟨[["s"], []], some "l", 0⟩ ∧
    putSucc ⟨[["s"], []], some "l", 0⟩ = ⟨[["s", "l"], []], none, 0⟩ ∧
    filterDst "ontop" ⟨"brick", "large", "red"⟩ ⟨"brick", "small", "blue"⟩
      = true := by
  decide

/-- C2 (amended): whenever the arm holds an object the put-down edge is
produced unconditionally — no physics oracle is consulted — and the held
object is appended to the top of the column under the arm. -/
theorem c2_putdown_unconditional (s : PState) (v : String)
    (h : s.holding = some v) :
    putEdge s ∈ outgoingEdges s ∧
    (putSucc s).holding = none ∧
    (putSucc s).stacks_.getD s.arm [] = s.stacks_.getD s.arm [] ++ [v] := by
  refine ⟨?_, ?_, ?_⟩
  · rw [mem_outgoingEdges]
    exact Or.inr (Or.inr (Or.inr ⟨by simp [h], rfl⟩))
  · simp [putSucc, h]
  · unfold putSucc
    rw [h]
    simp only
    rw [getD_set_self _ _ _ (arm_lt_pad_length s.stacks_ s.arm), getD_pad]

/-- Witness for C2 (amended): the put-down step of the counterexample
chain, produced with the held object appended on top of "s". -/
theorem c2_witness :
    putEdge ⟨[["s"], []], some "l", 0⟩
      ∈ outgoingEdges ⟨[["s"], []], some "l", 0⟩ ∧
    (putSucc ⟨[["s"], []], some "l", 0⟩).holding = none ∧
    (putSucc ⟨[["s"], []], some "l", 0⟩).stacks_.getD 0 []
      = ["s"] ++ ["l"] :=
  c2_putdown_unconditional ⟨[["s"], []], some "l", 0⟩ "l" rfl

/-- C5: every generated successor edge preserves the number of occurrences
of every object identifier across the stacks and the held object; an
identifier occurring exactly once keeps occurring exactly once. -/
theorem c5_conservation (s : PState) (e : Edge PState)
    (he : e ∈ outgoingEdges s) (x : String) (hx : occCount s x = 1) :
    occCount e.to_ x = 1 := by
  rw [mem_outgoingEdges] at he
  rcases he with ⟨h1, rfl⟩ | ⟨h2, rfl⟩ | ⟨h3, h4, rfl⟩ | ⟨h5, rfl⟩
  · simpa [leftEdge, occCount, moveLeftSucc] using hx
  · simpa [rightEdge, occCount, moveRightSucc] using hx
  · rw [show (pickEdge s).to_ = pickSucc s from rfl,
      occCount_pickSucc s h4 h3 x]
    exact hx
  · obtain ⟨v, hv⟩ : ∃ v, s.holding = some v := by
      cases hh : s.holding with
      | none => exact absurd hh h5
      | some v => exact ⟨v, rfl⟩
    rw [show (putEdge s).to_ = putSucc s from rfl, occCount_putSucc s v hv x]
    exact hx

/-- Witness for C5: picking up "a" keeps its occurrence count at one. -/
theorem c5_witness : occCount (pickSucc ⟨[["a"], ["b"]], none, 0⟩) "a" = 1 :=
  c5_conservation ⟨[["a"], ["b"]], none, 0⟩ (pickEdge ⟨[["a"], ["b"]], none, 0⟩)
    (by decide) "a" (by decide)

/-- Supporting fact for C1: no state at all makes an ontop literal true —
checkLit tests the relation name against each of its seven cases and
"ontop" matches none of them. -/
theorem checkLit_ontop_eq_false (lit : Literal) (s : PState)
    (h : lit.relation = "ontop") : checkLit lit s = false := by
  obtain ⟨p, r, a⟩ := lit
  simp only at h
  subst h
  rfl

/-- Every exit of the search loop is either the not-found sentinel
(path [], cost -1) or a result returned after popping a node that
satisfies the goal predicate. -/
theorem aStarLoop_notFound_or_goal {Node : Type} [DecidableEq Node]
    (succ : Node → List (Edge Node)) (goal : Node → Bool)
    (heuristics : Node → Int) :
    ∀ (fuel : Nat) (opn : List Node) (vis : List (Node × Wrapper Node)),
      aStarLoop succ goal heuristics fuel opn vis
        = (⟨[], -1⟩ : SearchResult Node) ∨ ∃ n, goal n = true := by
  intro fuel
  induction fuel with
  | zero =>
    intro opn vis
    left
    rfl
  | succ k ih =>
    intro opn vis
    cases hdq : dequeueMin (getF vis) opn with
    | none =>
      left
      simp [aStarLoop, hdq]
    | some p =>
      obtain ⟨current, rest⟩ := p
      by_cases hg : goal current
      · right
        exact ⟨current, hg⟩
      · have hstep : aStarLoop succ goal heuristics (k + 1) opn vis
            = aStarLoop succ goal heuristics k
              ((succ current).foldl (relaxEdge heuristics current) (rest, vis)).1
              ((succ current).foldl (relaxEdge heuristics current) (rest, vis)).2 := by
          simp [aStarLoop, hdq, hg]
        rw [hstep]
        exact ih _ _

/-- C7: with a zero deadline the search returns the not-found result
(empty path, cost -1) without failing; the loop returns not-found whenever
its open frontier is empty; and in general the search result is the
not-found sentinel unless some node satisfies the goal predicate (i.e. a
goal node could be popped). -/
theorem c7_search_notfound {Node : Type} [DecidableEq Node]
    (succ : Node → List (Edge Node)) (start : Node) (goal : Node → Bool)
    (heuristics : Node → Int) :
    (goal start = false →
      aStarSearch succ start goal heuristics 0
        = (⟨[], -1⟩ : SearchResult Node)) ∧
    (∀ fuel vis, aStarLoop succ goal heuristics fuel [] vis
        = (⟨[], -1⟩ : SearchResult Node)) ∧
    (∀ fuel, aStarSearch succ start goal heuristics fuel
        = (⟨[], -1⟩ : SearchResult Node) ∨ ∃ n, goal n = true) := by
  refine ⟨fun _ => rfl, ?_, ?_⟩
  · intro fuel vis
    cases fuel with
    | zero => rfl
    | succ k => simp [aStarLoop, dequeueMin]
  · intro fuel
    exact aStarLoop_notFound_or_goal succ goal heuristics fuel _ _

/-- Witness for C7: the zero-deadline search on a concrete graph. -/
theorem c7_witness :
    aStarSearch (fun _ : Nat => ([] : List (Edge Nat))) 0 (fun _ => false)
      (fun _ => 0) 0 = (⟨[], -1⟩ : SearchResult Nat) :=
  (c7_search_notfound (fun _ => []) 0 (fun _ => false) (fun _ => 0)).1 rfl

/-- C8: if the start state already satisfies the planner's goal predicate,
the search pops the start node first, immediately reconstructs, and
returns the single-state path with cost 0, whose encoding is the empty
action sequence. -/
theorem c8_goal_already_satisfied (F : List (List Literal)) (s : PState)
    (hfun : PState → Int) (fuel : Nat) (hfuel : 0 < fuel)
    (hF : goalDNF F s = true) :
    aStarSearch outgoingEdges s (fun st => goalDNF F st) hfun fuel
      = ⟨[s], 0⟩ ∧
    interpretPlan ⟨[s], 0⟩ = [] := by
  obtain ⟨k, rfl⟩ : ∃ k, fuel = k + 1 :=
    ⟨fuel - 1, (Nat.succ_pred_eq_of_pos hfuel).symm⟩
  refine ⟨?_, rfl⟩
  show aStarLoop outgoingEdges (fun st => goalDNF F st) hfun (k + 1) [s]
      [(s, ⟨none, s, 0, hfun s, 0 + hfun s⟩)] = ⟨[s], 0⟩
  simp [aStarLoop, dequeueMin, hF, getG, getParent, lookupW, backtrack]

/-- Witness for C8: a concrete already-satisfied holding goal. -/
theorem c8_witness :
    aStarSearch outgoingEdges ⟨[[]], some "a", 0⟩
      (fun st => goalDNF [[⟨true, "holding", ["a"]⟩]] st) (fun _ => 0) 1
      = ⟨[⟨[[]], some "a", 0⟩], 0⟩ ∧
    interpretPlan ⟨[⟨[[]], some "a", 0⟩], 0⟩ = [] :=
  c8_goal_already_satisfied [[⟨true, "holding", ["a"]⟩]] ⟨[[]], some "a", 0⟩
    (fun _ => 0) 1 (by decide) (by decide)

end Shrdlite
